import Mathlib

/-!
Verification development for the SEALMit artifact/trace storage and
traceability-resolution engine.

The frontend React pages are embedded from the JavaScript sources under
`frontend/src`.  The core engine (revisioned store, traceability resolver,
conflict detector, settings enforcer) is not present in the repository
snapshot; those definitions are modelled from the specification, as marked
in their doc comments.
-/

namespace Sealmit

/-! ## Data model (modelled from the spec, §3) -/

/-- Verification activity method (Test | Analysis | Review). -/
inductive VerificationMethod
  | test
  | analysis
  | review
deriving DecidableEq, Repr

/-- Trace type (Satisfies | Verifies | Mitigates | Causes). -/
inductive TraceType
  | satisfies
  | verifies
  | mitigates
  | causes
deriving DecidableEq, Repr

/-- Modelled from the spec: type-specific attribute set of an artifact;
the discriminator is the constructor tag (Requirement, RiskHazard,
RiskCause, VerificationActivity). -/
inductive ArtifactData
  | requirement (level : String) (parent_ids : List String)
  | riskHazard (severity : String)
  | riskCause (probability : String)
  | verificationActivity (method : VerificationMethod)
      (procedure setup : String) (passed : Bool)
deriving DecidableEq, Repr

/-- Modelled from the spec: an artifact record; the identifier is the key
of the artifact map in `ProjectState`, timestamps are abstract counters. -/
structure Artifact where
  title : String
  description : String
  justification : String
  created_at : Nat
  updated_at : Nat
  data : ArtifactData
deriving DecidableEq, Repr

/-- Modelled from the spec: a directed, typed edge between two artifact
identifiers.  A Mitigates trace against a specific (cause, hazard)
combination is represented as a Mitigates trace whose `target_id` is the
cause and whose `combo_hazard_id` names the hazard of the combination;
for every other trace `combo_hazard_id` is `none`. -/
structure Trace where
  source_id : String
  target_id : String
  trace_type : TraceType
  description : String
  combo_hazard_id : Option String
deriving DecidableEq, Repr

/-- One configured requirement level: name plus description. -/
structure LevelDef where
  name : String
  description : String
deriving DecidableEq, Repr

/-- Modelled from the spec: project configuration — ordered level list,
risk matrix (severity × probability → classification) and the two
structural settings. -/
structure ProjectConfig where
  levels : List LevelDef
  risk_matrix : List ((String × String) × String)
  enforce_single_parent : Bool
  prevent_orphans_at_lower_levels : Bool
deriving DecidableEq, Repr

/-- Modelled from the spec: the aggregate project snapshot — config, the
artifact map (association list keyed by artifact id) and the trace list. -/
structure ProjectState where
  config : ProjectConfig
  artifacts : List (String × Artifact)
  traces : List Trace
deriving DecidableEq, Repr

/-- Look up an artifact by id in a snapshot's artifact map. -/
def lookupArtifact : List (String × Artifact) → String → Option Artifact
  | [], _ => none
  | (k, a) :: rest, i => if k = i then some a else lookupArtifact rest i

/-! ## Frontend: level-entry normalization
(`ProjectSettings.jsx` fetchData, `RequirementsView.jsx` fetchData) -/

/-- A configured level entry as received from the API: either a bare
string or an object with `name` and `description`. -/
inductive LevelEntry
  | str (s : String)
  | obj (name description : String)
deriving DecidableEq, Repr

/-- `ProjectSettings.jsx` fetchData: normalize one level entry — a string
`s` becomes `{ name: s, description: '' }`, an object is returned
unchanged. -/
def normalizeLevel : LevelEntry → LevelEntry
  | .str s => .obj s ""
  | .obj n d => .obj n d

/-- `ProjectSettings.jsx` fetchData: `projectData.config.levels.map(...)`. -/
def normalizeLevels (ls : List LevelEntry) : List LevelEntry :=
  ls.map normalizeLevel

/-- `RequirementsView.jsx` fetchData: extract the level name from either
form (`typeof l === 'string' ? l : l.name`). -/
def levelEntryName : LevelEntry → String
  | .str s => s
  | .obj n _ => n

/-! ## Frontend: project creation (`ProjectList` handleCreateProject) -/

/-- The creation request body sent by `handleCreateProject`
(`{ name, levels: ['User', 'System'] }`). -/
structure CreateRequest where
  name : String
  levels : List String
deriving DecidableEq, Repr

/-- Outcome of one submission of the project-creation form: the request
issued (if any) and the displayed project list afterwards. -/
structure CreateOutcome where
  request : Option CreateRequest
  projects : List String
deriving DecidableEq, Repr

/-- `ProjectList.handleCreateProject`: `if (!newProjectName) return;`
an empty name issues no request; otherwise a POST with the name and the
default levels is sent.  The displayed project list is not modified by
the handler in either case. -/
def handleCreateProject (name : String) (projects : List String) :
    CreateOutcome :=
  if name = "" then { request := none, projects := projects }
  else { request := some { name := name, levels := ["User", "System"] },
         projects := projects }

/-! ## Frontend: parent selection (`RequirementsView` handleParentChange) -/

/-- `RequirementsView.handleParentChange`: when `enforce_single_parent`
holds and more than one option is selected, only the last selected option
is kept; otherwise the selection is taken as-is. -/
def handleParentChange (enforce_single_parent : Bool)
    (selectedOptions : List String) : List String :=
  if enforce_single_parent && selectedOptions.length > 1 then
    match selectedOptions.getLast? with
    | some x => [x]
    | none => []
  else selectedOptions

/-! ## Traceability resolver (modelled from the spec, §4.2) -/

/-- Is the artifact with this id a RiskHazard in the snapshot? -/
def isHazard (S : ProjectState) (i : String) : Bool :=
  match lookupArtifact S.artifacts i with
  | some a =>
    match a.data with
    | .riskHazard _ => true
    | _ => false
  | none => false

/-- Is the artifact with this id a RiskCause in the snapshot? -/
def isCause (S : ProjectState) (i : String) : Bool :=
  match lookupArtifact S.artifacts i with
  | some a =>
    match a.data with
    | .riskCause _ => true
    | _ => false
  | none => false

/-- The Mitigates traces whose source is the given requirement. -/
def mitigatesOf (S : ProjectState) (r : String) : List Trace :=
  S.traces.filter fun t =>
    t.trace_type == TraceType.mitigates && t.source_id == r

/-- Targets of the Causes edges leaving a given cause id. -/
def causesTargets (S : ProjectState) (c : String) : List String :=
  (S.traces.filter fun t =>
    t.trace_type == TraceType.causes && t.source_id == c).map (·.target_id)

/-- Sources of the Causes edges arriving at a given hazard id. -/
def causesSources (S : ProjectState) (h : String) : List String :=
  (S.traces.filter fun t =>
    t.trace_type == TraceType.causes && t.target_id == h).map (·.source_id)

/-- Modelled from the spec: the hazards contributed by one Mitigates
trace — the hazard of a (cause, hazard) combination, a directly traced
hazard, or the one-hop Causes expansion of a traced cause. -/
def hazardHop (S : ProjectState) (t : Trace) : List String :=
  match t.combo_hazard_id with
  | some h => [h]
  | none =>
    if isHazard S t.target_id then [t.target_id]
    else if isCause S t.target_id then causesTargets S t.target_id
    else []

/-- Modelled from the spec: `resolveHazardsFor(requirementId)` — union of
(a) hazards directly traced via Mitigates, (b) hazards reachable through a
Mitigates-to-cause edge followed by that cause's Causes edges, (c) hazards
named in a mitigated (cause, hazard) combination. -/
def resolveHazardsFor (S : ProjectState) (r : String) : List String :=
  ((mitigatesOf S r).flatMap (hazardHop S)).dedup

/-- Modelled from the spec: the causes contributed by one Mitigates
trace — the cause of a (cause, hazard) combination, or all causes of a
directly mitigated hazard. -/
def causeHop (S : ProjectState) (t : Trace) : List String :=
  match t.combo_hazard_id with
  | some _ => [t.target_id]
  | none =>
    if isHazard S t.target_id then causesSources S t.target_id
    else []

/-- Modelled from the spec: `resolveCausesFor(requirementId)` — causes
implied when the requirement mitigates a hazard directly (all causes of
that hazard) or a specific (cause, hazard) combination. -/
def resolveCausesFor (S : ProjectState) (r : String) : List String :=
  ((mitigatesOf S r).flatMap (causeHop S)).dedup

/-! ## Verification coverage (modelled from the spec, §4.2) -/

/-- Does this artifact record a requirement listing `r` among its
parents? -/
def hasParent (a : Artifact) (r : String) : Bool :=
  match a.data with
  | .requirement _ parent_ids => parent_ids.contains r
  | _ => false

/-- The children of a requirement: ids of the requirements whose parent
set contains it. -/
def childIds (S : ProjectState) (r : String) : List String :=
  (S.artifacts.filter fun p => hasParent p.2 r).map (·.1)

/-- Is the artifact with this id a VerificationActivity with
`passed = true`?  Activities with `passed = false` do not contribute to
coverage. -/
def isPassedActivity (S : ProjectState) (i : String) : Bool :=
  match lookupArtifact S.artifacts i with
  | some a =>
    match a.data with
    | .verificationActivity _ _ _ passed => passed
    | _ => false
  | none => false

/-- Does at least one passing Verifies trace point at this requirement? -/
def hasPassingVerifies (S : ProjectState) (r : String) : Bool :=
  S.traces.any fun t =>
    t.trace_type == TraceType.verifies && t.target_id == r &&
      isPassedActivity S t.source_id

/-- Modelled from the spec: the coverage recursion, bounded by fuel (the
parent hierarchy of a well-formed snapshot is acyclic, so a fuel of one
more than the artifact count always suffices; exhausted fuel yields 0).
No children: 1 when a passing Verifies trace points at the requirement,
else 0.  Children: (count of children with coverage 1) / (child count). -/
def coverAux (S : ProjectState) : Nat → String → ℚ
  | 0, _ => 0
  | fuel + 1, r =>
    if (childIds S r).isEmpty then
      if hasPassingVerifies S r then 1 else 0
    else
      (((childIds S r).filter fun c => decide (coverAux S fuel c = 1)).length : ℚ) /
        ((childIds S r).length : ℚ)

/-- `verificationCoverage(requirementId)` with the canonical fuel. -/
def verificationCoverage (S : ProjectState) (r : String) : ℚ :=
  coverAux S (S.artifacts.length + 1) r

/-- The leaf descendants of a requirement, bounded by fuel: the
requirement itself when it has no children, otherwise the leaves of its
children. -/
def leavesAux (S : ProjectState) : Nat → String → List String
  | 0, _ => []
  | fuel + 1, r =>
    if (childIds S r).isEmpty then [r]
    else (childIds S r).flatMap (leavesAux S fuel)

/-- Leaf descendants with the canonical fuel. -/
def leafDescendants (S : ProjectState) (r : String) : List String :=
  leavesAux S (S.artifacts.length + 1) r

/-- Does the given fuel cover the depth of the parent hierarchy below a
requirement?  True exactly when every descending child chain from `r`
ends within `fuel` steps. -/
def boundedDepth (S : ProjectState) : Nat → String → Bool
  | 0, _ => false
  | fuel + 1, r => (childIds S r).all (boundedDepth S fuel)

/-! ## Conflict detector / merger (modelled from the spec, §4.3) -/

/-- Classification of a conflicting artifact id. -/
inductive ConflictKind
  | bothModified
  | theirsDeletedOursModified
  | oursDeletedTheirsModified
deriving DecidableEq, Repr

/-- A per-artifact conflict reported by `detect`. -/
structure ArtifactConflict where
  id : String
  kind : ConflictKind
deriving DecidableEq, Repr

/-- All artifact ids appearing in any of the three snapshots. -/
def artifactIds (base theirs ours : ProjectState) : List String :=
  (base.artifacts.map (·.1) ++ theirs.artifacts.map (·.1) ++
    ours.artifacts.map (·.1)).dedup

/-- Was the artifact id modified (added, changed or removed) in `side`
relative to `base`? -/
def modifiedIn (base side : ProjectState) (i : String) : Bool :=
  decide (lookupArtifact side.artifacts i ≠ lookupArtifact base.artifacts i)

/-- Modelled from the spec: classify one id — it conflicts iff it was
modified relative to base in both sides and the two modifications
differ; the kind distinguishes deletions from modifications. -/
def classify (base theirs ours : ProjectState) (i : String) :
    Option ConflictKind :=
  if modifiedIn base theirs i && modifiedIn base ours i &&
      decide (lookupArtifact theirs.artifacts i ≠ lookupArtifact ours.artifacts i) then
    match lookupArtifact theirs.artifacts i, lookupArtifact ours.artifacts i with
    | none, _ => some .theirsDeletedOursModified
    | _, none => some .oursDeletedTheirsModified
    | _, _ => some .bothModified
  else none

/-- Modelled from the spec: `detect(base, theirs, ours)` — the per-id
three-way structural diff over the artifact map (each trace is treated
as an atomic record in the same way; the artifact map carries the
claim-relevant content). -/
def detect (base theirs ours : ProjectState) : List ArtifactConflict :=
  (artifactIds base theirs ours).filterMap fun i =>
    (classify base theirs ours i).map ({ id := i, kind := · })

/-- Modelled from the spec: the auto-merged value of one id — an id
modified in only one side takes that side's value (including deletion);
an id modified identically in both takes the shared value; a conflicting
id keeps the base value until resolution; an unmodified id keeps base. -/
def autoMergedValue (base theirs ours : ProjectState) (i : String) :
    Option Artifact :=
  if modifiedIn base theirs i && !modifiedIn base ours i then
    lookupArtifact theirs.artifacts i
  else if modifiedIn base ours i && !modifiedIn base theirs i then
    lookupArtifact ours.artifacts i
  else if modifiedIn base theirs i && modifiedIn base ours i &&
      decide (lookupArtifact theirs.artifacts i = lookupArtifact ours.artifacts i) then
    lookupArtifact theirs.artifacts i
  else
    lookupArtifact base.artifacts i

/-- The auto-merged artifact map built from `autoMergedValue`. -/
def autoMergeArtifacts (base theirs ours : ProjectState) :
    List (String × Artifact) :=
  (artifactIds base theirs ours).filterMap fun i =>
    (autoMergedValue base theirs ours i).map ((i, ·))

/-! ## Revisioned store (modelled from the spec, §4.1) -/

/-- A committed revision: id, parent pointer, metadata and the full
snapshot. -/
structure RevisionEntry where
  revId : Nat
  parent : Option Nat
  author : String
  timestamp : Nat
  message : String
  snapshot : ProjectState
deriving DecidableEq, Repr

/-- One entry of `history(projectId)`. -/
structure HistoryEntry where
  revisionId : Nat
  author : String
  timestamp : Nat
  message : String
deriving DecidableEq, Repr

/-- Durable per-project store content: the revision chain (most recent
first) and the optional uncommitted draft. -/
structure StoreProject where
  revisions : List RevisionEntry
  draft : Option ProjectState
deriving DecidableEq, Repr

/-- The whole store: an association list keyed by project id. -/
abbrev Store := List (String × StoreProject)

/-- Error kinds of the core (spec §7), carrying structured detail. -/
inductive StoreError
  | notFound
  | alreadyExists
  | emptyMessage
  | conflictDetected (conflicts : List ArtifactConflict)
  | revisionNotFound
  | validationFailed (rule : String) (artifactId : String)
  | danglingLevelReference (artifactId : String)
deriving DecidableEq, Repr

/-- Look up a project in the store. -/
def lookupProject : Store → String → Option StoreProject
  | [], _ => none
  | (k, sp) :: rest, p => if k = p then some sp else lookupProject rest p

/-- Apply a function to the store entry (entries) with the given key. -/
def updateProject : Store → String → (StoreProject → StoreProject) → Store
  | [], _, _ => []
  | (k, sp) :: rest, p, f =>
    if k = p then (k, f sp) :: updateProject rest p f
    else (k, sp) :: updateProject rest p f

/-- The default (empty) project state of a fresh project. -/
def defaultProjectState : ProjectState :=
  { config :=
      { levels := [], risk_matrix := [],
        enforce_single_parent := false,
        prevent_orphans_at_lower_levels := false },
    artifacts := [], traces := [] }

/-- The snapshot at the latest revision. -/
def latestSnapshot (sp : StoreProject) : ProjectState :=
  match sp.revisions.head? with
  | some rev => rev.snapshot
  | none => defaultProjectState

/-- The state a caller works on: the saved draft if present, otherwise
the state at the latest revision. -/
def draftState (sp : StoreProject) : ProjectState :=
  sp.draft.getD (latestSnapshot sp)

/-- Modelled from the spec: `loadDraft(projectId)` — most recently saved
uncommitted state if present, else the latest revision; `NotFound` when
the project does not exist. -/
def loadDraft (s : Store) (p : String) : Except StoreError ProjectState :=
  match lookupProject s p with
  | none => .error .notFound
  | some sp => .ok (draftState sp)

/-- Modelled from the spec: `saveDraft(projectId, state)` — persists the
state as the uncommitted working state without creating a revision;
repeated calls overwrite the prior draft. -/
def saveDraft (s : Store) (p : String) (S : ProjectState) : Store :=
  updateProject s p fun sp => { sp with draft := some S }

/-- A message is blank when it contains only whitespace. -/
def isBlank (m : String) : Bool :=
  m.toList.all (·.isWhitespace)

/-- The next fresh revision id of a project. -/
def nextRevId (sp : StoreProject) : Nat :=
  (sp.revisions.map (·.revId)).foldr max 0 + 1

/-- The snapshot at a given revision id, or the default state when the
revision is unknown. -/
def snapshotAt (sp : StoreProject) (b : Nat) : ProjectState :=
  match sp.revisions.find? fun rev => rev.revId == b with
  | some rev => rev.snapshot
  | none => defaultProjectState

/-- Modelled from the spec: `commit(projectId, message, expectedBase)` —
fails with `EmptyMessage` on a blank message; fast-forwards into a new
revision whose parent is `expectedBase` when the actual latest revision
still equals it; fails with `ConflictDetected` carrying the conflict set
(draft vs expected base vs actual latest) when the head has advanced. -/
def commit (s : Store) (p author : String) (timestamp : Nat)
    (message : String) (expectedBase : Nat) :
    Except StoreError (Store × Nat) :=
  match lookupProject s p with
  | none => .error .notFound
  | some sp =>
    if isBlank message then .error .emptyMessage
    else
      match sp.revisions.head? with
      | none => .error .revisionNotFound
      | some latest =>
        if latest.revId = expectedBase then
          .ok (updateProject s p fun q =>
                { revisions :=
                    { revId := nextRevId sp, parent := some expectedBase,
                      author := author, timestamp := timestamp,
                      message := message, snapshot := draftState sp } ::
                      q.revisions,
                  draft := none },
              nextRevId sp)
        else
          .error (.conflictDetected
            (detect (snapshotAt sp expectedBase) latest.snapshot
              (draftState sp)))

/-- The history entry of a revision. -/
def historyEntry (rev : RevisionEntry) : HistoryEntry :=
  { revisionId := rev.revId, author := rev.author,
    timestamp := rev.timestamp, message := rev.message }

/-- Modelled from the spec: `history(projectId)` — the revision metadata,
most recent first. -/
def history (s : Store) (p : String) : Except StoreError (List HistoryEntry) :=
  match lookupProject s p with
  | none => .error .notFound
  | some sp => .ok (sp.revisions.map historyEntry)

/-! ## Project settings enforcer (modelled from the spec, §4.4) -/

/-- The names of the configured levels, in order. -/
def levelNames (config : ProjectConfig) : List String :=
  config.levels.map (·.name)

/-- The topmost configured level: the first entry of the level list. -/
def firstLevelName (config : ProjectConfig) : Option String :=
  (levelNames config).head?

/-- The first requirement whose parent set has more than one element. -/
def requirementParentViolation (S : ProjectState) : Option String :=
  (S.artifacts.find? fun q =>
    match q.2.data with
    | .requirement _ parent_ids => decide (parent_ids.length > 1)
    | _ => false).map (·.1)

/-- The first non-top-level requirement with an empty parent set. -/
def orphanViolation (config : ProjectConfig) (S : ProjectState) :
    Option String :=
  (S.artifacts.find? fun q =>
    match q.2.data with
    | .requirement lvl parent_ids =>
      decide (some lvl ≠ firstLevelName config) && parent_ids.isEmpty
    | _ => false).map (·.1)

/-- The first requirement whose level is not a configured level. -/
def levelViolation (config : ProjectConfig) (S : ProjectState) :
    Option String :=
  (S.artifacts.find? fun q =>
    match q.2.data with
    | .requirement lvl _ => !(levelNames config).contains lvl
    | _ => false).map (·.1)

/-- Modelled from the spec: `validateMutation(config, prior, proposed)` —
checks single-parent cardinality, orphan prevention and level existence
against the active config; the listed checks are structural over the
proposed state, so the prior state is not consulted. -/
def validateMutation (config : ProjectConfig) ( _priorState : ProjectState)
    (proposed : ProjectState) : Except StoreError Unit :=
  match (if config.enforce_single_parent then
          requirementParentViolation proposed else none) with
  | some i => .error (.validationFailed "enforce_single_parent" i)
  | none =>
    match (if config.prevent_orphans_at_lower_levels then
            orphanViolation config proposed else none) with
    | some i => .error (.validationFailed "prevent_orphans_at_lower_levels" i)
    | none =>
      match levelViolation config proposed with
      | some i => .error (.danglingLevelReference i)
      | none => .ok ()

/-- Modelled from the spec: the guarded write path — validation runs
before any `saveDraft` is accepted, rejecting the mutation synchronously
on a violation. -/
def saveDraftValidated (s : Store) (p : String) (S : ProjectState) :
    Except StoreError Store :=
  match lookupProject s p with
  | none => .error .notFound
  | some sp =>
    match validateMutation S.config (draftState sp) S with
    | .error e => .error e
    | .ok _ => .ok (saveDraft s p S)

/-- The store a caller holds after an attempted validated save: the new
store on success, the unchanged store on rejection. -/
def storeAfterSave (s : Store) (p : String) (S : ProjectState) : Store :=
  match saveDraftValidated s p S with
  | .ok s' => s'
  | .error _ => s

/-! ## Concrete example states -/

/-- A requirement artifact with the given level and parents. -/
def mkRequirement (level : String) (parent_ids : List String) : Artifact :=
  { title := "", description := "", justification := "",
    created_at := 0, updated_at := 0,
    data := .requirement level parent_ids }

/-- A risk-cause artifact. -/
def mkCause : Artifact :=
  { title := "", description := "", justification := "",
    created_at := 0, updated_at := 0, data := .riskCause "" }

/-- A risk-hazard artifact. -/
def mkHazard : Artifact :=
  { title := "", description := "", justification := "",
    created_at := 0, updated_at := 0, data := .riskHazard "" }

/-- A passing verification activity. -/
def mkPassedActivity : Artifact :=
  { title := "", description := "", justification := "",
    created_at := 0, updated_at := 0,
    data := .verificationActivity .test "" "" true }

/-- A plain trace with no combination target. -/
def mkTrace (src tgt : String) (ty : TraceType) : Trace :=
  { source_id := src, target_id := tgt, trace_type := ty,
    description := "", combo_hazard_id := none }

/-- A snapshot whose cause-to-hazard trace graph contains a cycle
(`C1 → C2 → C1` via Causes edges) and a requirement mitigating `C1`. -/
def cyclicCausesState : ProjectState :=
  { config := defaultProjectState.config,
    artifacts :=
      [("R", mkRequirement "User" []), ("C1", mkCause), ("C2", mkCause)],
    traces :=
      [mkTrace "R" "C1" .mitigates,
       mkTrace "C1" "C2" .causes,
       mkTrace "C2" "C1" .causes] }

/-! ## Claim theorems -/

/-- C10: the settings page normalizes each configured level entry to
object form — a string `s` becomes `{name := s, description := ""}` and
an object entry is kept unchanged — preserving list order (the
normalization is an element-wise map), and the requirements page extracts
the same name from either form. -/
theorem levels_normalization (ls : List LevelEntry) :
    normalizeLevels ls = ls.map normalizeLevel ∧
    (∀ s, normalizeLevel (.str s) = .obj s "") ∧
    (∀ n d, normalizeLevel (.obj n d) = .obj n d) ∧
    (∀ l, levelEntryName (normalizeLevel l) = levelEntryName l) ∧
    (normalizeLevels ls).map levelEntryName = ls.map levelEntryName := by
  have hname : ∀ l, levelEntryName (normalizeLevel l) = levelEntryName l := by
    intro l; cases l <;> rfl
  refine ⟨rfl, fun s => rfl, fun n d => rfl, hname, ?_⟩
  simp only [normalizeLevels, List.map_map]
  exact List.map_congr_left fun l _ => hname l

/-- C9: submitting the project-creation form with an empty name issues no
creation request and leaves the displayed project list unchanged; a
request (with the typed name and the default levels) is sent exactly when
the name is non-empty. -/
theorem handleCreateProject_empty_guard (name : String)
    (projects : List String) :
    (handleCreateProject name projects).projects = projects ∧
    ((handleCreateProject name projects).request = none ↔ name = "") ∧
    (name ≠ "" → (handleCreateProject name projects).request =
      some { name := name, levels := ["User", "System"] }) := by
  by_cases h : name = "" <;> simp [handleCreateProject, h]

/-- Witness for C9 at concrete inputs. -/
theorem handleCreateProject_empty_guard_witness :
    (handleCreateProject "Demo" ["P1"]).request =
      some { name := "Demo", levels := ["User", "System"] } ∧
    (handleCreateProject "" ["P1"]).request = none :=
  ⟨(handleCreateProject_empty_guard "Demo" ["P1"]).2.2 (by decide),
   (handleCreateProject_empty_guard "" ["P1"]).2.1.mpr rfl⟩

/-- C3: the resolvers return the empty set on trace-free states; on the
concrete snapshot whose Causes graph is cyclic they still evaluate (the
one-hop union is total by construction), as the concrete evaluations
show. -/
theorem resolvers_empty_and_cycle_tolerant (S : ProjectState) (r : String) :
    (S.traces = [] → resolveHazardsFor S r = [] ∧ resolveCausesFor S r = []) ∧
    resolveHazardsFor cyclicCausesState "R" = ["C2"] ∧
    resolveCausesFor cyclicCausesState "R" = [] := by
  refine ⟨fun h => ?_, by decide, by decide⟩
  simp [resolveHazardsFor, resolveCausesFor, mitigatesOf, h]

/-- Witness for C3 at a concrete trace-free state. -/
theorem resolvers_empty_and_cycle_tolerant_witness :
    defaultProjectState.traces = [] ∧
    (resolveHazardsFor defaultProjectState "R" = [] ∧
      resolveCausesFor defaultProjectState "R" = []) :=
  ⟨rfl, (resolvers_empty_and_cycle_tolerant defaultProjectState "R").1 rfl⟩

/-- An id cannot be both a RiskCause and a RiskHazard: the discriminator
of the looked-up artifact is unique. -/
theorem isCause_not_isHazard (S : ProjectState) (i : String)
    (h : isCause S i = true) : isHazard S i = false := by
  unfold isCause at h
  unfold isHazard
  cases hl : lookupArtifact S.artifacts i with
  | none => rfl
  | some a =>
    rw [hl] at h
    cases hd : a.data <;> simp [hd] at h ⊢

/-- Membership in the Mitigates traces of a requirement. -/
theorem mem_mitigatesOf (S : ProjectState) (r : String) (t : Trace) :
    t ∈ mitigatesOf S r ↔
      t ∈ S.traces ∧ t.trace_type = .mitigates ∧ t.source_id = r := by
  simp [mitigatesOf, List.mem_filter, and_assoc]

/-- Membership in the one-hop Causes expansion of a cause. -/
theorem mem_causesTargets (S : ProjectState) (c h : String) :
    h ∈ causesTargets S c ↔
      ∃ u ∈ S.traces, u.trace_type = .causes ∧ u.source_id = c ∧
        u.target_id = h := by
  simp only [causesTargets, List.mem_map, List.mem_filter, Bool.and_eq_true,
    beq_iff_eq]
  constructor
  · rintro ⟨u, ⟨hu, ht, hs⟩, rfl⟩
    exact ⟨u, hu, ht, hs, rfl⟩
  · rintro ⟨u, hu, ht, hs, rfl⟩
    exact ⟨u, ⟨hu, ht, hs⟩, rfl⟩

/-- C2: `resolveHazardsFor(r)` contains a hazard id iff it is (a)
directly traced from `r` via a Mitigates edge to a hazard, or (b)
reachable by a Mitigates edge from `r` to a cause followed by one of that
cause's Causes edges, or (c) named as the hazard of a (cause, hazard)
combination that `r` mitigates. -/
theorem resolveHazardsFor_spec (S : ProjectState) (r h : String) :
    h ∈ resolveHazardsFor S r ↔
      ((∃ t ∈ S.traces, t.trace_type = .mitigates ∧ t.source_id = r ∧
          t.combo_hazard_id = none ∧ t.target_id = h ∧ isHazard S h = true) ∨
       (∃ t ∈ S.traces, ∃ u ∈ S.traces, t.trace_type = .mitigates ∧
          t.source_id = r ∧ t.combo_hazard_id = none ∧
          isCause S t.target_id = true ∧ u.trace_type = .causes ∧
          u.source_id = t.target_id ∧ u.target_id = h) ∨
       (∃ t ∈ S.traces, t.trace_type = .mitigates ∧ t.source_id = r ∧
          t.combo_hazard_id = some h)) := by
  rw [resolveHazardsFor, List.mem_dedup, List.mem_flatMap]
  constructor
  · rintro ⟨t, htm, hh⟩
    rw [mem_mitigatesOf] at htm
    obtain ⟨htr, hty, hsrc⟩ := htm
    unfold hazardHop at hh
    cases hcombo : t.combo_hazard_id with
    | some h' =>
      rw [hcombo] at hh
      simp only [List.mem_singleton] at hh
      subst hh
      exact Or.inr (Or.inr ⟨t, htr, hty, hsrc, hcombo⟩)
    | none =>
      rw [hcombo] at hh
      by_cases hhz : isHazard S t.target_id = true
      · rw [if_pos hhz] at hh
        simp only [List.mem_singleton] at hh
        subst hh
        exact Or.inl ⟨t, htr, hty, hsrc, hcombo, rfl, hhz⟩
      · rw [if_neg hhz] at hh
        by_cases hcz : isCause S t.target_id = true
        · rw [if_pos hcz, mem_causesTargets] at hh
          obtain ⟨u, hu, huty, husrc, hutgt⟩ := hh
          exact Or.inr (Or.inl ⟨t, htr, u, hu, hty, hsrc, hcombo, hcz,
            huty, husrc, hutgt⟩)
        · rw [if_neg hcz] at hh
          exact absurd hh (List.not_mem_nil h)
  · rintro (⟨t, htr, hty, hsrc, hcombo, htgt, hhz⟩ |
            ⟨t, htr, u, hu, hty, hsrc, hcombo, hcz, huty, husrc, hutgt⟩ |
            ⟨t, htr, hty, hsrc, hcombo⟩)
    · refine ⟨t, (mem_mitigatesOf S r t).mpr ⟨htr, hty, hsrc⟩, ?_⟩
      unfold hazardHop
      rw [hcombo, htgt, if_pos hhz]
      exact List.mem_singleton.mpr rfl
    · refine ⟨t, (mem_mitigatesOf S r t).mpr ⟨htr, hty, hsrc⟩, ?_⟩
      unfold hazardHop
      rw [hcombo, if_neg (by simp [isCause_not_isHazard S _ hcz]), if_pos hcz,
        mem_causesTargets]
      exact ⟨u, hu, huty, husrc, hutgt⟩
    · refine ⟨t, (mem_mitigatesOf S r t).mpr ⟨htr, hty, hsrc⟩, ?_⟩
      unfold hazardHop
      rw [hcombo]
      exact List.mem_singleton.mpr rfl

/-- Witness for C2: on the cyclic example, `C2` is resolved through the
Mitigates-to-cause hop. -/
theorem resolveHazardsFor_spec_witness :
    "C2" ∈ resolveHazardsFor cyclicCausesState "R" :=
  (resolveHazardsFor_spec cyclicCausesState "R" "C2").mpr (by decide)

/-! ## Store lemmas -/

/-- Looking the updated key up after an update sees the function applied
to the stored value. -/
theorem lookupProject_updateProject (s : Store) (p : String)
    (f : StoreProject → StoreProject) :
    lookupProject (updateProject s p f) p = (lookupProject s p).map f := by
  induction s with
  | nil => rfl
  | cons hd tl ih =>
    obtain ⟨k, sp⟩ := hd
    by_cases hkp : k = p
    · simp [updateProject, lookupProject, hkp]
    · simp [updateProject, lookupProject, hkp, ih]

/-- Updating twice composes the update functions. -/
theorem updateProject_updateProject (s : Store) (p : String)
    (f g : StoreProject → StoreProject) :
    updateProject (updateProject s p f) p g =
      updateProject s p (fun sp => g (f sp)) := by
  induction s with
  | nil => rfl
  | cons hd tl ih =>
    obtain ⟨k, sp⟩ := hd
    simp only [updateProject]
    by_cases hkp : k = p
    · rw [if_pos hkp]
      simp only [updateProject, if_pos hkp, ih]
    · rw [if_neg hkp]
      simp only [updateProject, if_neg hkp, ih]

/-- The committed revisions of a project, as seen through the store. -/
def revisionsOf (s : Store) (p : String) : Option (List RevisionEntry) :=
  (lookupProject s p).map (·.revisions)

/-- C6: saving a draft and loading it back returns the same state (every
artifact and trace field is preserved, the store holds full snapshots),
saving the same state twice yields the same persisted store, and no
`saveDraft` call creates a revision. -/
theorem saveDraft_roundtrip (s : Store) (p : String) (S : ProjectState)
    (sp : StoreProject) (hsp : lookupProject s p = some sp) :
    loadDraft (saveDraft s p S) p = .ok S ∧
    saveDraft (saveDraft s p S) p S = saveDraft s p S ∧
    revisionsOf (saveDraft s p S) p = revisionsOf s p := by
  refine ⟨?_, ?_, ?_⟩
  · simp only [loadDraft, saveDraft, lookupProject_updateProject, hsp,
      Option.map_some']
    rfl
  · simp only [saveDraft, updateProject_updateProject]
  · simp only [revisionsOf, saveDraft, lookupProject_updateProject, hsp,
      Option.map_some']

/-- Witness for C6 at a concrete store. -/
theorem saveDraft_roundtrip_witness :
    lookupProject [("p", StoreProject.mk [] none)] "p" =
      some (StoreProject.mk [] none) ∧
    (loadDraft (saveDraft [("p", StoreProject.mk [] none)] "p"
        cyclicCausesState) "p" = .ok cyclicCausesState ∧
      saveDraft (saveDraft [("p", StoreProject.mk [] none)] "p"
          cyclicCausesState) "p" cyclicCausesState =
        saveDraft [("p", StoreProject.mk [] none)] "p" cyclicCausesState ∧
      revisionsOf (saveDraft [("p", StoreProject.mk [] none)] "p"
          cyclicCausesState) "p" =
        revisionsOf [("p", StoreProject.mk [] none)] "p") :=
  ⟨by decide,
   saveDraft_roundtrip [("p", StoreProject.mk [] none)] "p"
     cyclicCausesState (StoreProject.mk [] none) (by decide)⟩

/-- C4: with the project present and a latest revision at hand — commit
of a blank message fails with `EmptyMessage`; for a non-blank message the
commit succeeds (producing a new revision whose parent is the expected
base) iff the actual latest revision still equals the expected base, and
when the head has advanced it fails with `ConflictDetected` carrying the
conflict set of draft vs expected base vs actual latest. -/
theorem commit_contract (s : Store) (p author : String) (ts : Nat)
    (m : String) (b : Nat) (sp : StoreProject) (latest : RevisionEntry)
    (hsp : lookupProject s p = some sp)
    (hlatest : sp.revisions.head? = some latest) :
    (isBlank m = true → commit s p author ts m b = .error .emptyMessage) ∧
    (isBlank m = false →
      ((∃ s' rid, commit s p author ts m b = .ok (s', rid)) ↔
        latest.revId = b)) ∧
    (isBlank m = false → latest.revId = b →
      ∃ s' sp', commit s p author ts m b = .ok (s', nextRevId sp) ∧
        lookupProject s' p = some sp' ∧
        sp'.revisions.head? = some
          { revId := nextRevId sp, parent := some b, author := author,
            timestamp := ts, message := m, snapshot := draftState sp }) ∧
    (isBlank m = false → latest.revId ≠ b →
      commit s p author ts m b = .error (.conflictDetected
        (detect (snapshotAt sp b) latest.snapshot (draftState sp)))) := by
  have hok : isBlank m = false → latest.revId = b →
      commit s p author ts m b = .ok (updateProject s p (fun q =>
        { revisions :=
            { revId := nextRevId sp, parent := some b,
              author := author, timestamp := ts, message := m,
              snapshot := draftState sp } :: q.revisions,
          draft := none }),
        nextRevId sp) := by
    intro hb heq
    simp [commit, hsp, hb, hlatest, heq]
  have hconf : isBlank m = false → latest.revId ≠ b →
      commit s p author ts m b = .error (.conflictDetected
        (detect (snapshotAt sp b) latest.snapshot (draftState sp))) := by
    intro hb hne
    simp [commit, hsp, hb, hlatest, hne]
  refine ⟨fun hb => by simp [commit, hsp, hb], fun hb => ⟨?_, ?_⟩,
    fun hb heq => ?_, hconf⟩
  · rintro ⟨s', rid, hokk⟩
    by_contra hne
    rw [hconf hb hne] at hokk
    exact Except.noConfusion hokk
  · intro heq
    exact ⟨_, _, hok hb heq⟩
  · refine ⟨_,
      { revisions :=
          { revId := nextRevId sp, parent := some b,
            author := author, timestamp := ts, message := m,
            snapshot := draftState sp } :: sp.revisions,
        draft := none },
      hok hb heq, ?_, rfl⟩
    rw [lookupProject_updateProject, hsp]
    rfl

/-- C7: every successful commit pushes exactly one new history entry at
the front (history is most recent first), and the new head revision's
parent is the previous head. -/
theorem commit_monotonicity (s : Store) (p author : String) (ts : Nat)
    (m : String) (b : Nat) (s' : Store) (rid : Nat)
    (hc : commit s p author ts m b = .ok (s', rid)) :
    ∃ sp latest sp' hist,
      lookupProject s p = some sp ∧
      sp.revisions.head? = some latest ∧
      latest.revId = b ∧
      history s p = .ok hist ∧
      history s' p = .ok
        ({ revisionId := rid, author := author,
           timestamp := ts, message := m } :: hist) ∧
      lookupProject s' p = some sp' ∧
      sp'.revisions =
        { revId := rid, parent := some b, author := author,
          timestamp := ts, message := m, snapshot := draftState sp } ::
          sp.revisions := by
  simp only [commit] at hc
  cases hsp : lookupProject s p with
  | none => rw [hsp] at hc; exact Except.noConfusion hc
  | some sp =>
    rw [hsp] at hc
    simp only at hc
    by_cases hb : isBlank m = true
    · rw [if_pos hb] at hc
      exact Except.noConfusion hc
    · rw [if_neg hb] at hc
      cases hhead : sp.revisions.head? with
      | none => rw [hhead] at hc; exact Except.noConfusion hc
      | some latest =>
        rw [hhead] at hc
        simp only at hc
        by_cases heq : latest.revId = b
        · rw [if_pos heq] at hc
          rw [Except.ok.injEq, Prod.mk.injEq] at hc
          obtain ⟨hs', hrid⟩ := hc
          subst hs'
          subst hrid
          refine ⟨sp, latest,
            { revisions :=
                { revId := nextRevId sp, parent := some b,
                  author := author, timestamp := ts, message := m,
                  snapshot := draftState sp } :: sp.revisions,
              draft := none },
            sp.revisions.map historyEntry, rfl, hhead, heq,
            by simp [history, hsp], ?_, ?_, rfl⟩
          · simp [history, lookupProject_updateProject, hsp, historyEntry]
          · rw [lookupProject_updateProject, hsp]
            rfl
        · rw [if_neg heq] at hc
          exact Except.noConfusion hc

/-- Decidable equality of `Except` results, for evaluating the store
operations on concrete inputs. -/
instance {ε α : Type} [DecidableEq ε] [DecidableEq α] :
    DecidableEq (Except ε α) := fun x y =>
  match x, y with
  | .ok a, .ok b =>
    if h : a = b then isTrue (by rw [h]) else isFalse (by simp [h])
  | .error e, .error f =>
    if h : e = f then isTrue (by rw [h]) else isFalse (by simp [h])
  | .ok _, .error _ => isFalse (by simp)
  | .error _, .ok _ => isFalse (by simp)

/-- The initial revision of the example store. -/
def exRev : RevisionEntry :=
  { revId := 1, parent := none, author := "init", timestamp := 0,
    message := "initial", snapshot := defaultProjectState }

/-- An example store with one project, one revision and a saved draft. -/
def exStore : Store :=
  [("p", { revisions := [exRev], draft := some cyclicCausesState })]

/-- Witness for C4 at the example store. -/
theorem commit_contract_witness :
    lookupProject exStore "p" =
      some { revisions := [exRev], draft := some cyclicCausesState } ∧
    (StoreProject.mk [exRev] (some cyclicCausesState)).revisions.head? =
      some exRev ∧
    ((isBlank "m" = true →
        commit exStore "p" "a" 5 "m" 1 = .error .emptyMessage) ∧
      (isBlank "m" = false →
        ((∃ s' rid, commit exStore "p" "a" 5 "m" 1 = .ok (s', rid)) ↔
          exRev.revId = 1)) ∧
      (isBlank "m" = false → exRev.revId = 1 →
        ∃ s' sp', commit exStore "p" "a" 5 "m" 1 =
            .ok (s', nextRevId
              (StoreProject.mk [exRev] (some cyclicCausesState))) ∧
          lookupProject s' "p" = some sp' ∧
          sp'.revisions.head? = some
            { revId := nextRevId
                (StoreProject.mk [exRev] (some cyclicCausesState)),
              parent := some 1, author := "a", timestamp := 5,
              message := "m",
              snapshot := draftState
                (StoreProject.mk [exRev] (some cyclicCausesState)) }) ∧
      (isBlank "m" = false → exRev.revId ≠ 1 →
        commit exStore "p" "a" 5 "m" 1 = .error (.conflictDetected
          (detect
            (snapshotAt (StoreProject.mk [exRev] (some cyclicCausesState)) 1)
            exRev.snapshot
            (draftState
              (StoreProject.mk [exRev] (some cyclicCausesState))))))) :=
  ⟨by decide, by decide,
   commit_contract exStore "p" "a" 5 "m" 1
     (StoreProject.mk [exRev] (some cyclicCausesState)) exRev
     (by decide) (by decide)⟩

/-- The example store after the witnessed commit. -/
def exStoreAfter : Store :=
  [("p",
    { revisions :=
        [{ revId := 2, parent := some 1, author := "a", timestamp := 5,
           message := "m", snapshot := cyclicCausesState }, exRev],
      draft := none })]

/-- Witness for C7: the concrete commit succeeds and the conclusion holds
for it. -/
theorem commit_monotonicity_witness :
    commit exStore "p" "a" 5 "m" 1 = .ok (exStoreAfter, 2) ∧
    (∃ sp latest sp' hist,
      lookupProject exStore "p" = some sp ∧
      sp.revisions.head? = some latest ∧
      latest.revId = 1 ∧
      history exStore "p" = .ok hist ∧
      history exStoreAfter "p" = .ok
        ({ revisionId := 2, author := "a",
           timestamp := 5, message := "m" } :: hist) ∧
      lookupProject exStoreAfter "p" = some sp' ∧
      sp'.revisions =
        { revId := 2, parent := some 1, author := "a",
          timestamp := 5, message := "m", snapshot := draftState sp } ::
          sp.revisions) :=
  ⟨by decide,
   commit_monotonicity exStore "p" "a" 5 "m" 1 exStoreAfter 2 (by decide)⟩

/-! ## Conflict-detection lemmas -/

/-- A successful artifact lookup means the id is among the map's keys. -/
theorem mem_keys_of_lookupArtifact (l : List (String × Artifact))
    (i : String) (a : Artifact) (h : lookupArtifact l i = some a) :
    i ∈ l.map (·.1) := by
  induction l with
  | nil => exact Option.noConfusion h
  | cons hd tl ih =>
    obtain ⟨k, b⟩ := hd
    rw [lookupArtifact] at h
    by_cases hk : k = i
    · subst hk
      exact List.mem_cons_self _ _
    · rw [if_neg hk] at h
      exact List.mem_cons_of_mem _ (ih h)

/-- An id modified in `theirs` appears among the compared ids. -/
theorem mem_artifactIds_of_modified_theirs (base theirs ours : ProjectState)
    (i : String) (h : modifiedIn base theirs i = true) :
    i ∈ artifactIds base theirs ours := by
  rw [modifiedIn, decide_eq_true_iff] at h
  rw [artifactIds, List.mem_dedup, List.mem_append, List.mem_append]
  cases hs : lookupArtifact theirs.artifacts i with
  | some a => exact Or.inl (Or.inr (mem_keys_of_lookupArtifact _ _ _ hs))
  | none =>
    cases hb : lookupArtifact base.artifacts i with
    | some a => exact Or.inl (Or.inl (mem_keys_of_lookupArtifact _ _ _ hb))
    | none => rw [hs, hb] at h; exact absurd rfl h

/-- An id modified in `ours` appears among the compared ids. -/
theorem mem_artifactIds_of_modified_ours (base theirs ours : ProjectState)
    (i : String) (h : modifiedIn base ours i = true) :
    i ∈ artifactIds base theirs ours := by
  rw [modifiedIn, decide_eq_true_iff] at h
  rw [artifactIds, List.mem_dedup, List.mem_append, List.mem_append]
  cases hs : lookupArtifact ours.artifacts i with
  | some a => exact Or.inr (mem_keys_of_lookupArtifact _ _ _ hs)
  | none =>
    cases hb : lookupArtifact base.artifacts i with
    | some a => exact Or.inl (Or.inl (mem_keys_of_lookupArtifact _ _ _ hb))
    | none => rw [hs, hb] at h; exact absurd rfl h

/-- Membership in the conflict list, in terms of `classify`. -/
theorem mem_detect (base theirs ours : ProjectState) (i : String)
    (k : ConflictKind) :
    ArtifactConflict.mk i k ∈ detect base theirs ours ↔
      i ∈ artifactIds base theirs ours ∧
        classify base theirs ours i = some k := by
  rw [detect, List.mem_filterMap]
  constructor
  · rintro ⟨j, hj, hcl⟩
    rw [Option.map_eq_some'] at hcl
    obtain ⟨k', hk', hmk⟩ := hcl
    injection hmk with h1 h2
    subst h1
    subst h2
    exact ⟨hj, hk'⟩
  · rintro ⟨hi, hcl⟩
    exact ⟨i, hi, by rw [hcl]; rfl⟩

/-- `classify` reports a conflict exactly when the id was modified on
both sides and the modifications differ. -/
theorem classify_isSome_iff (base theirs ours : ProjectState) (i : String) :
    (∃ k, classify base theirs ours i = some k) ↔
      (modifiedIn base theirs i = true ∧ modifiedIn base ours i = true ∧
        lookupArtifact theirs.artifacts i ≠ lookupArtifact ours.artifacts i) := by
  constructor
  · rintro ⟨k, hk⟩
    unfold classify at hk
    by_cases hcond : (modifiedIn base theirs i && modifiedIn base ours i &&
        decide (lookupArtifact theirs.artifacts i ≠
          lookupArtifact ours.artifacts i)) = true
    · simpa [Bool.and_eq_true, decide_eq_true_iff, and_assoc] using hcond
    · rw [if_neg hcond] at hk
      exact Option.noConfusion hk
  · rintro ⟨h1, h2, h3⟩
    unfold classify
    rw [if_pos (by simp [h1, h2, h3])]
    cases lookupArtifact theirs.artifacts i <;>
      cases lookupArtifact ours.artifacts i <;> exact ⟨_, rfl⟩

/-- Lookup in an association list built over nodup keys from an optional
per-key value. -/
theorem lookupArtifact_filterMap (f : String → Option Artifact)
    (j : String) :
    ∀ ids : List String, ids.Nodup →
      lookupArtifact (ids.filterMap fun i => (f i).map ((i, ·))) j =
        if j ∈ ids then f j else none := by
  intro ids
  induction ids with
  | nil => intro _; simp [lookupArtifact]
  | cons i rest ih =>
    intro hn
    rw [List.nodup_cons] at hn
    obtain ⟨hni, hnr⟩ := hn
    rw [List.filterMap_cons]
    cases hf : f i with
    | none =>
      simp only [Option.map_none']
      rw [ih hnr]
      by_cases hji : j = i
      · subst hji
        rw [if_neg hni, if_pos (List.mem_cons_self _ _), hf]
      · simp [List.mem_cons, hji]
    | some a =>
      simp only [Option.map_some']
      by_cases hij : i = j
      · subst hij
        simp [lookupArtifact, hf]
      · have hji : ¬ j = i := fun h => hij h.symm
        simp only [lookupArtifact, if_neg hij, ih hnr, List.mem_cons]
        simp [hji]

/-- Lookup in the auto-merged artifact map evaluates `autoMergedValue`. -/
theorem lookupArtifact_autoMerge (base theirs ours : ProjectState)
    (j : String) :
    lookupArtifact (autoMergeArtifacts base theirs ours) j =
      if j ∈ artifactIds base theirs ours then
        autoMergedValue base theirs ours j
      else none :=
  lookupArtifact_filterMap _ j _ (List.nodup_dedup _)

/-- C5: an id is reported by `detect` iff it was modified (added, changed
or removed) relative to base in both sides and the two modifications
differ; an id modified in only one side is not reported and the merged
map carries that side's value (including deletions). -/
theorem detect_conflict_iff (base theirs ours : ProjectState) (i : String) :
    ((∃ k, ArtifactConflict.mk i k ∈ detect base theirs ours) ↔
      (modifiedIn base theirs i = true ∧ modifiedIn base ours i = true ∧
        lookupArtifact theirs.artifacts i ≠
          lookupArtifact ours.artifacts i)) ∧
    (modifiedIn base theirs i = true → modifiedIn base ours i = false →
      (∀ k, ArtifactConflict.mk i k ∉ detect base theirs ours) ∧
      lookupArtifact (autoMergeArtifacts base theirs ours) i =
        lookupArtifact theirs.artifacts i) ∧
    (modifiedIn base ours i = true → modifiedIn base theirs i = false →
      (∀ k, ArtifactConflict.mk i k ∉ detect base theirs ours) ∧
      lookupArtifact (autoMergeArtifacts base theirs ours) i =
        lookupArtifact ours.artifacts i) := by
  refine ⟨⟨?_, ?_⟩, ?_, ?_⟩
  · rintro ⟨k, hk⟩
    rw [mem_detect] at hk
    exact (classify_isSome_iff base theirs ours i).mp ⟨k, hk.2⟩
  · intro hcond
    obtain ⟨k, hk⟩ := (classify_isSome_iff base theirs ours i).mpr hcond
    exact ⟨k, (mem_detect base theirs ours i k).mpr
      ⟨mem_artifactIds_of_modified_theirs base theirs ours i hcond.1, hk⟩⟩
  · intro h1 h2
    constructor
    · intro k hk
      rw [mem_detect] at hk
      have hs := (classify_isSome_iff base theirs ours i).mp ⟨k, hk.2⟩
      rw [hs.2.1] at h2
      exact Bool.noConfusion h2
    · rw [lookupArtifact_autoMerge,
        if_pos (mem_artifactIds_of_modified_theirs base theirs ours i h1),
        autoMergedValue, if_pos (by simp [h1, h2])]
  · intro h1 h2
    constructor
    · intro k hk
      rw [mem_detect] at hk
      have hs := (classify_isSome_iff base theirs ours i).mp ⟨k, hk.2⟩
      rw [hs.1] at h2
      exact Bool.noConfusion h2
    · rw [lookupArtifact_autoMerge,
        if_pos (mem_artifactIds_of_modified_ours base theirs ours i h1),
        autoMergedValue, if_neg (by simp [h2]), if_pos (by simp [h1, h2])]

/-- The base snapshot of the C5 witness: one requirement `X`. -/
def exBase : ProjectState :=
  { config := defaultProjectState.config,
    artifacts := [("X", mkRequirement "User" [])], traces := [] }

/-- Their side of the C5 witness: `X` modified. -/
def exTheirs : ProjectState :=
  { config := defaultProjectState.config,
    artifacts := [("X", mkRequirement "System" [])], traces := [] }

/-- Our side of the C5 witness: `X` deleted. -/
def exOurs : ProjectState :=
  { config := defaultProjectState.config, artifacts := [], traces := [] }

/-- Witness for C5: modified-vs-deleted on the concrete snapshots yields
a reported conflict on `X`. -/
theorem detect_conflict_iff_witness :
    ∃ k, ArtifactConflict.mk "X" k ∈ detect exBase exTheirs exOurs :=
  (detect_conflict_iff exBase exTheirs exOurs "X").1.mpr (by decide)

/-! ## Settings enforcement -/

/-- C8: with `enforce_single_parent` active, any attempt to save a state
holding a requirement with more than one parent fails with
`ValidationFailed` and the caller's store (hence the loadable prior
state) is unchanged; a state accepted by the validated save has only
requirements with at most one parent; and the client's parent selector
keeps only the last selected parent when several are picked. -/
theorem enforce_single_parent_spec (s : Store) (p : String)
    (S : ProjectState) (sp : StoreProject)
    (hsp : lookupProject s p = some sp)
    (henf : S.config.enforce_single_parent = true) :
    ((∃ i a lvl ps, (i, a) ∈ S.artifacts ∧
        a.data = .requirement lvl ps ∧ ps.length > 1) →
      (∃ j, saveDraftValidated s p S =
        .error (.validationFailed "enforce_single_parent" j)) ∧
      storeAfterSave s p S = s ∧
      loadDraft (storeAfterSave s p S) p = loadDraft s p) ∧
    (∀ s', saveDraftValidated s p S = .ok s' →
      ∀ i a lvl ps, (i, a) ∈ S.artifacts →
        a.data = .requirement lvl ps → ps.length ≤ 1) ∧
    (∀ opts : List String, opts.length > 1 →
      ∃ x, opts.getLast? = some x ∧ handleParentChange true opts = [x]) := by
  refine ⟨?_, ?_, ?_⟩
  · rintro ⟨i, a, lvl, ps, hmem, hdata, hlen⟩
    have hfind : (S.artifacts.find? fun q =>
        match q.2.data with
        | .requirement _ parent_ids => decide (parent_ids.length > 1)
        | _ => false).isSome := by
      rw [List.find?_isSome]
      exact ⟨(i, a), hmem, by simp [hdata, hlen]⟩
    obtain ⟨q, hq⟩ := Option.isSome_iff_exists.mp hfind
    have hval : validateMutation S.config (draftState sp) S =
        .error (.validationFailed "enforce_single_parent" q.1) := by
      simp [validateMutation, henf, requirementParentViolation, hq]
    have hsv : saveDraftValidated s p S =
        .error (.validationFailed "enforce_single_parent" q.1) := by
      simp [saveDraftValidated, hsp, hval]
    have hst : storeAfterSave s p S = s := by
      simp [storeAfterSave, hsv]
    exact ⟨⟨q.1, hsv⟩, hst, by rw [hst]⟩
  · intro s' hok i a lvl ps hmem hdata
    cases hv : requirementParentViolation S with
    | some j =>
      rw [saveDraftValidated, hsp] at hok
      simp only [validateMutation, henf, if_true, hv] at hok
      exact Except.noConfusion hok
    | none =>
      rw [requirementParentViolation, Option.map_eq_none'] at hv
      have hnp := List.find?_eq_none.mp hv (i, a) hmem
      rw [hdata] at hnp
      simp only [decide_eq_true_iff] at hnp
      omega
  · intro opts hlen
    have hne : opts ≠ [] := by
      intro h
      rw [h] at hlen
      exact absurd hlen (by simp)
    refine ⟨opts.getLast hne, List.getLast?_eq_getLast _ hne, ?_⟩
    rw [handleParentChange, if_pos (by simp [hlen]),
      List.getLast?_eq_getLast _ hne]

/-- A state violating the single-parent rule under an enforcing config. -/
def exViolState : ProjectState :=
  { config :=
      { levels := [⟨"User", ""⟩, ⟨"System", ""⟩], risk_matrix := [],
        enforce_single_parent := true,
        prevent_orphans_at_lower_levels := false },
    artifacts :=
      [("R1", mkRequirement "User" []),
       ("R2", mkRequirement "System" ["A", "B"])],
    traces := [] }

/-- Witness for C8: the concrete violating save is rejected with
`ValidationFailed`. -/
theorem enforce_single_parent_spec_witness :
    ∃ j, saveDraftValidated exStore "p" exViolState =
      .error (.validationFailed "enforce_single_parent" j) :=
  ((enforce_single_parent_spec exStore "p" exViolState
      { revisions := [exRev], draft := some cyclicCausesState }
      (by decide) rfl).1
    ⟨"R2", mkRequirement "System" ["A", "B"], "System", ["A", "B"],
      by decide, rfl, by decide⟩).1

/-! ## Coverage lemmas -/

/-- Coverage is never negative, at any fuel. -/
theorem coverAux_nonneg (S : ProjectState) (fuel : Nat) (r : String) :
    0 ≤ coverAux S fuel r := by
  cases fuel with
  | zero => exact le_refl 0
  | succ n =>
    rw [coverAux]
    by_cases h : (childIds S r).isEmpty
    · rw [if_pos h]
      split <;> norm_num
    · rw [if_neg h]
      exact div_nonneg (Nat.cast_nonneg _) (Nat.cast_nonneg _)

/-- Coverage never exceeds one, at any fuel. -/
theorem coverAux_le_one (S : ProjectState) (fuel : Nat) (r : String) :
    coverAux S fuel r ≤ 1 := by
  cases fuel with
  | zero => norm_num [coverAux]
  | succ n =>
    rw [coverAux]
    by_cases h : (childIds S r).isEmpty
    · rw [if_pos h]
      split <;> norm_num
    · rw [if_neg h]
      have hne : childIds S r ≠ [] := by simpa [List.isEmpty_iff] using h
      have hpos : 0 < ((childIds S r).length : ℚ) := by
        exact_mod_cast List.length_pos.mpr hne
      rw [div_le_one hpos]
      exact_mod_cast List.length_filter_le _ _

/-- Once the fuel covers the depth of the hierarchy below a requirement,
further fuel does not change the computed coverage. -/
theorem coverAux_stable (S : ProjectState) :
    ∀ fuel r, boundedDepth S fuel r = true →
      ∀ fuel', fuel ≤ fuel' → coverAux S fuel' r = coverAux S fuel r := by
  intro fuel
  induction fuel with
  | zero =>
    intro r h
    exact absurd h (by simp [boundedDepth])
  | succ n ih =>
    intro r h fuel' hle
    obtain ⟨m, rfl⟩ : ∃ m, fuel' = m + 1 := ⟨fuel' - 1, by omega⟩
    have hmn : n ≤ m := by omega
    rw [boundedDepth, List.all_eq_true] at h
    rw [coverAux, coverAux]
    by_cases he : (childIds S r).isEmpty
    · rw [if_pos he, if_pos he]
    · rw [if_neg he, if_neg he]
      have hcongr : ∀ c ∈ childIds S r,
          (decide (coverAux S m c = 1)) = (decide (coverAux S n c = 1)) := by
        intro c hc
        rw [ih c (h c hc) m hmn]
      rw [List.filter_congr hcongr]

/-- With sufficient fuel, coverage equals one exactly when every leaf
descendant carries a passing Verifies trace. -/
theorem coverAux_eq_one_iff (S : ProjectState) :
    ∀ fuel r, boundedDepth S fuel r = true →
      (coverAux S fuel r = 1 ↔
        ∀ l ∈ leavesAux S fuel r, hasPassingVerifies S l = true) := by
  intro fuel
  induction fuel with
  | zero =>
    intro r h
    exact absurd h (by simp [boundedDepth])
  | succ n ih =>
    intro r h
    rw [boundedDepth, List.all_eq_true] at h
    rw [coverAux, leavesAux]
    by_cases he : (childIds S r).isEmpty
    · rw [if_pos he, if_pos he]
      constructor
      · intro h1 l hl
        rw [List.mem_singleton] at hl
        subst hl
        by_contra hp
        rw [Bool.not_eq_true] at hp
        rw [hp] at h1
        norm_num at h1
      · intro hall
        rw [if_pos (hall r (List.mem_singleton.mpr rfl))]
    · rw [if_neg he, if_neg he]
      have hne : childIds S r ≠ [] := by simpa [List.isEmpty_iff] using he
      have hpos : 0 < ((childIds S r).length : ℚ) := by
        exact_mod_cast List.length_pos.mpr hne
      rw [div_eq_one_iff_eq (ne_of_gt hpos), Nat.cast_inj]
      constructor
      · intro hlen l hl
        rw [List.mem_flatMap] at hl
        obtain ⟨c, hc, hlc⟩ := hl
        have hfe : (childIds S r).filter
            (fun c => decide (coverAux S n c = 1)) = childIds S r :=
          (List.filter_sublist _).eq_of_length hlen
        have hone : coverAux S n c = 1 :=
          of_decide_eq_true (List.filter_eq_self.mp hfe c hc)
        exact ((ih c (h c hc)).mp hone) l hlc
      · intro hall
        have hfe : (childIds S r).filter
            (fun c => decide (coverAux S n c = 1)) = childIds S r := by
          rw [List.filter_eq_self]
          intro c hc
          rw [decide_eq_true_iff]
          exact (ih c (h c hc)).mpr
            (fun l hl => hall l (List.mem_flatMap.mpr ⟨c, hc, hl⟩))
        rw [hfe]

/-- C1: under a parent hierarchy whose depth below `r` is bounded (true
of every acyclic hierarchy, with fuel one more than the artifact count),
`verificationCoverage` is a ratio in `[0, 1]`; a requirement without
children has coverage 1 exactly on a passing Verifies trace and 0
otherwise; a requirement with children has coverage (children with
coverage 1) / (children); and coverage is 1 iff every leaf descendant
(or `r` itself when it is a leaf) has a passing Verifies trace. -/
theorem verificationCoverage_spec (S : ProjectState) (r : String)
    (hd : boundedDepth S (S.artifacts.length + 1) r = true) :
    0 ≤ verificationCoverage S r ∧ verificationCoverage S r ≤ 1 ∧
    ((childIds S r).isEmpty = true →
      verificationCoverage S r =
        if hasPassingVerifies S r then 1 else 0) ∧
    ((childIds S r).isEmpty = false →
      verificationCoverage S r =
        (((childIds S r).filter fun c =>
            decide (verificationCoverage S c = 1)).length : ℚ) /
          ((childIds S r).length : ℚ)) ∧
    (verificationCoverage S r = 1 ↔
      ∀ l ∈ leafDescendants S r, hasPassingVerifies S l = true) := by
  refine ⟨coverAux_nonneg S _ r, coverAux_le_one S _ r, ?_, ?_, ?_⟩
  · intro he
    rw [verificationCoverage, coverAux, if_pos he]
  · intro he
    rw [verificationCoverage, coverAux, if_neg (by simp [he])]
    rw [boundedDepth, List.all_eq_true] at hd
    have hcongr : ∀ c ∈ childIds S r,
        (decide (coverAux S S.artifacts.length c = 1)) =
          (decide (verificationCoverage S c = 1)) := by
      intro c hc
      rw [verificationCoverage, coverAux_stable S S.artifacts.length c
        (hd c hc) (S.artifacts.length + 1) (Nat.le_succ _)]
    rw [List.filter_congr hcongr]
  · rw [verificationCoverage, leafDescendants]
    exact coverAux_eq_one_iff S _ r hd

/-- The spec §8 scenario: `R2` (child of `R1`) verified by the passing
activity `V1`. -/
def exCovState : ProjectState :=
  { config := defaultProjectState.config,
    artifacts :=
      [("R1", mkRequirement "User" []),
       ("R2", mkRequirement "System" ["R1"]),
       ("V1", mkPassedActivity)],
    traces := [mkTrace "V1" "R2" .verifies] }

/-- Witness for C1: the parent requirement of the concrete scenario is
fully covered. -/
theorem verificationCoverage_spec_witness :
    verificationCoverage exCovState "R1" = 1 :=
  (verificationCoverage_spec exCovState "R1" (by decide)).2.2.2.2.mpr
    (by decide)

end Sealmit
